import Mathlib

/-!
Verification of the pull-request labeler (src/main.ts).

The file embeds the program shallowly: the pure decision logic
(`getLabelGlobMapFromObject`, `checkGlobs`, the label-selection loop of
`processPR`) is translated directly from the TypeScript; the orchestration
loop of `run` is embedded as a function from an abstract environment (the
platform API calls it awaits) to a trace of observable events, and the
JavaScript number used for the operation budget is embedded as `JsNum`
(an integer or NaN) so that NaN comparison semantics are preserved.
Glob matching is performed by the external `minimatch` package; it is
modelled from the spec's glob semantics — `*`, `?`, `**`, bracket
character classes and brace alternation (see `segMatch`, `pathMatch`,
`braceExpand`).
-/

namespace Labeler

/-! ## Glob matching (model of the external minimatch dependency) -/

/-- Split a path (as a character list) on `/` separators, like
`String.splitOn "/"`: `splitPath "a/b".toList = [['a'], ['b']]`. -/
def splitPath : List Char → List (List Char)
  | [] => [[]]
  | c :: cs =>
    if c = '/' then [] :: splitPath cs
    else
      match splitPath cs with
      | [] => [[c]]
      | seg :: rest => (c :: seg) :: rest

/-- One token of a compiled glob-pattern segment: a literal character,
`?`, `*`, or a bracket character class (possibly negated, each member a
single character or an `a-b` range). -/
inductive Tok where
  | lit (c : Char)
  | anyOne
  | star
  | cls (neg : Bool) (ranges : List (Char × Char))
deriving DecidableEq, Repr

/-- Scan a bracket-class body up to the closing `]`: each member is a
single character or an `a-b` range (a `-` standing right before the
`]` is a literal member); `none` when the class is never closed. -/
def classSpan : List Char → Option (List (Char × Char) × List Char)
  | [] => none
  | ']' :: rest => some ([], rest)
  | a :: '-' :: b :: rest =>
    if b = ']' then some ([(a, a), ('-', '-')], rest)
    else
      match classSpan rest with
      | none => none
      | some (ranges, rest2) => some ((a, b) :: ranges, rest2)
  | a :: rest =>
    match classSpan rest with
    | none => none
    | some (ranges, rest2) => some ((a, a) :: ranges, rest2)

/-- A bracket-class body where a `]` in first position (right after the
`[` or the negation mark) is a literal member, as in glob. -/
def classBody : List Char → Option (List (Char × Char) × List Char)
  | ']' :: rest =>
    match classSpan rest with
    | none => none
    | some (ranges, rest2) => some ((']', ']') :: ranges, rest2)
  | s => classSpan s

/-- Parse the characters following a `[`: an optional `!` or `^`
negation mark, then the members; `none` when there is no closing `]`
(the `[` is then matched as a literal character). -/
def parseClass : List Char → Option (Bool × List (Char × Char) × List Char)
  | '!' :: rest =>
    match classBody rest with
    | none => none
    | some (ranges, rest2) => some (true, ranges, rest2)
  | '^' :: rest =>
    match classBody rest with
    | none => none
    | some (ranges, rest2) => some (true, ranges, rest2)
  | s =>
    match classBody s with
    | none => none
    | some (ranges, rest2) => some (false, ranges, rest2)

/-- Does a path character fall in (or, negated, out of) the class? -/
def charInClass (neg : Bool) (ranges : List (Char × Char)) (f : Char) : Bool :=
  let mem := ranges.any (fun r => decide (r.1 ≤ f) && decide (f ≤ r.2))
  if neg then !mem else mem

/-- Tokenise one glob-pattern segment.  The fuel argument only makes the
recursion structural (each step consumes at least one character, so a
fuel of the segment's length, as `compileSeg` passes, never runs out). -/
def compileSegFuel : Nat → List Char → List Tok
  | 0, _ => []
  | _ + 1, [] => []
  | fuel + 1, c :: cs =>
    if c = '*' then Tok.star :: compileSegFuel fuel cs
    else if c = '?' then Tok.anyOne :: compileSegFuel fuel cs
    else if c = '[' then
      match parseClass cs with
      | none => Tok.lit '[' :: compileSegFuel fuel cs
      | some (neg, ranges, rest) => Tok.cls neg ranges :: compileSegFuel fuel rest
    else Tok.lit c :: compileSegFuel fuel cs

/-- Tokenise one glob-pattern segment: `*`, `?`, bracket classes and
literal characters. -/
def compileSeg (s : List Char) : List Tok :=
  compileSegFuel s.length s

/-- Modelled from the spec: one tokenised glob-pattern segment matches
one path segment, where `*` matches any characters within the segment
(zero or more, i.e. some suffix of the remaining characters is matched
by the rest of the tokens), `?` matches exactly one character, and a
bracket class matches one character by `charInClass`. -/
def segMatch : List Tok → List Char → Bool
  | [], fs => fs.isEmpty
  | Tok.star :: ps, fs => fs.tails.any (fun t => segMatch ps t)
  | Tok.anyOne :: ps, fs =>
    match fs with
    | [] => false
    | _ :: fs => segMatch ps fs
  | Tok.cls neg ranges :: ps, fs =>
    match fs with
    | [] => false
    | f :: fs => charInClass neg ranges f && segMatch ps fs
  | Tok.lit c :: ps, fs =>
    match fs with
    | [] => false
    | f :: fs => (c = f) && segMatch ps fs

/-- A compiled glob-pattern segment: the special segment `**`, or an
ordinary tokenised segment matched by `segMatch`. -/
inductive Seg where
  | globstar
  | pat (toks : List Tok)
deriving DecidableEq, Repr

/-- Find the matching `}` for an already-seen `{`, tracking the nesting
depth: `some (body, rest)` splits at that brace, `none` means the brace
is unmatched. -/
def matchBrace : List Char → Nat → Option (List Char × List Char)
  | [], _ => none
  | c :: cs, d =>
    if c = '}' then
      if d = 0 then some ([], cs)
      else
        match matchBrace cs (d - 1) with
        | none => none
        | some (body, rest) => some (c :: body, rest)
    else if c = '{' then
      match matchBrace cs (d + 1) with
      | none => none
      | some (body, rest) => some (c :: body, rest)
    else
      match matchBrace cs d with
      | none => none
      | some (body, rest) => some (c :: body, rest)

/-- Split a brace-group body at its top-level commas (commas inside
nested braces do not split). -/
def splitTopCommas : List Char → Nat → List (List Char)
  | [], _ => [[]]
  | c :: cs, d =>
    if c = ',' ∧ d = 0 then [] :: splitTopCommas cs d
    else
      let d2 := if c = '{' then d + 1 else if c = '}' then d - 1 else d
      match splitTopCommas cs d2 with
      | [] => [[c]]
      | seg :: rest => (c :: seg) :: rest

/-- Find the first expandable brace group: a `{...}` with a matching
close and at least one top-level comma.  An unmatched `{`, or a group
without a comma, is literal; for the latter the scan resumes inside it,
so a nested group (as in a brace group inside `\x7ba\x7bb,c\x7d\x7d`) is still
found. -/
def braceAlts : List Char → Option (List Char × List (List Char) × List Char)
  | [] => none
  | c :: cs =>
    if c = '{' then
      match matchBrace cs 0 with
      | some (body, rest) =>
        let alts := splitTopCommas body 0
        if 2 ≤ alts.length then some ([], alts, rest)
        else
          match braceAlts cs with
          | none => none
          | some (pre, alts2, suf) => some (c :: pre, alts2, suf)
      | none =>
        match braceAlts cs with
        | none => none
        | some (pre, alts2, suf) => some (c :: pre, alts2, suf)
    else
      match braceAlts cs with
      | none => none
      | some (pre, alts2, suf) => some (c :: pre, alts2, suf)

/-- Expand brace alternation over a whole pattern, leftmost group first,
recursively (so both nested groups and several groups in sequence are
expanded).  The fuel only makes the recursion structural: each
substitution drops the braces, the commas and the other alternatives,
so it shortens the pattern and a fuel of the pattern's length (as
`braceExpand` passes) never runs out. -/
def braceExpandFuel : Nat → List Char → List (List Char)
  | 0, s => [s]
  | fuel + 1, s =>
    match braceAlts s with
    | none => [s]
    | some (pre, alts, suf) =>
      (alts.map (fun a => braceExpandFuel fuel (pre ++ a ++ suf))).flatten

/-- Modelled from the spec (bracket/brace alternation): the set of
patterns a glob pattern stands for once its brace alternatives are
expanded, the way minimatch expands braces before anything else. -/
def braceExpand (s : List Char) : List (List Char) :=
  braceExpandFuel s.length s

/-- Compile one brace-free pattern: split on `/`; a segment that is
exactly `**` becomes `Seg.globstar` (modelled from the spec: `**`
crosses path separators, i.e. matches zero or more whole segments),
every other segment is tokenised by `compileSeg`. -/
def compileGlobOne (expanded : List Char) : List Seg :=
  (splitPath expanded).map
    (fun s => if s = ['*', '*'] then Seg.globstar else Seg.pat (compileSeg s))

/-- Compile a glob pattern: expand its brace alternatives, then compile
each resulting pattern; the pattern matches when any expansion does. -/
def compileGlob (g : String) : List (List Seg) :=
  (braceExpand g.toList).map compileGlobOne

/-- Modelled from the spec: a compiled pattern matches a path
segment-by-segment; `**` matches any number (including zero) of whole
segments, every other segment is matched by `segMatch`. -/
def pathMatch : List Seg → List (List Char) → Bool
  | [], fs => fs.isEmpty
  | Seg.globstar :: ps, fs => fs.tails.any (fun t => pathMatch ps t)
  | Seg.pat p :: ps, fs =>
    match fs with
    | [] => false
    | f :: fs => segMatch p f && pathMatch ps fs

/-- `new Minimatch(glob).match(file)`: does the glob pattern match the
file path?  (Model of the external minimatch call in `checkGlobs`: the
pattern matches when any of its brace expansions matches the path.) -/
def minimatchMatch (g f : String) : Bool :=
  (compileGlob g).any (fun segs => pathMatch segs (splitPath f.toList))

/-! ## checkGlobs (src/main.ts lines 194-207) -/

/-- The inner loop of `checkGlobs`: test each changed file against one
compiled matcher, returning true on the first match. -/
def matchAnyFile (g : String) : List String → Bool
  | [] => false
  | f :: fs => if minimatchMatch g f then true else matchAnyFile g fs

/-- `checkGlobs(changedFiles, globs)`: for each glob, compile it and test
each changed file, returning true on the first match found; false when
the loops finish without a match. -/
def checkGlobs (changedFiles : List String) : List String → Bool
  | [] => false
  | g :: gs => if matchAnyFile g changedFiles then true else checkGlobs changedFiles gs

/-! ## Configuration parsing (src/main.ts lines 177-192) -/

/-- A YAML value as seen by `getLabelGlobMapFromObject` through
JavaScript's dynamic typing: the function accepts a value with
`typeof v === 'string'` or `v instanceof Array` and rejects every other
shape (`num`, `boolv`, `nullv`, and `obj` standing for any non-array
object, including the empty one). -/
inductive ConfigValue where
  | str (s : String)
  | arr (xs : List String)
  | num (n : Int)
  | boolv (b : Bool)
  | nullv
  | obj
deriving DecidableEq, Repr

/-- The message of the `Error` thrown by `getLabelGlobMapFromObject` for
a value that is neither a string nor an array. -/
def configErrMsg (label : String) : String :=
  "found unexpected type for label " ++ label ++ " (should be string or array of globs)"

/-- Does `getLabelGlobMapFromObject` accept this value shape? -/
def ConfigValue.isStrOrArr : ConfigValue → Bool
  | .str _ => true
  | .arr _ => true
  | _ => false

/-- `getLabelGlobMapFromObject(configObject)`: iterate the object's keys
in insertion order; a string value becomes a one-pattern list, an array
is used directly, anything else throws `configErrMsg`. -/
def getLabelGlobMapFromObject : List (String × ConfigValue) → Except String (List (String × List String))
  | [] => .ok []
  | (label, ConfigValue.str s) :: rest =>
    (getLabelGlobMapFromObject rest).map (fun m => (label, [s]) :: m)
  | (label, ConfigValue.arr xs) :: rest =>
    (getLabelGlobMapFromObject rest).map (fun m => (label, xs) :: m)
  | (label, _) :: _ => .error (configErrMsg label)

/-! ## Label decision (the body of processPR, src/main.ts lines 86-100) -/

/-- The rule loop of `processPR`: for each `(label, globs)` entry of the
configuration map, in insertion order, skip the label if it is in
`existingLabels`, otherwise push it onto `labelsToAdd` when
`checkGlobs` reports a match. -/
def ruleLabels (existingLabels changedFiles : List String) : List (String × List String) → List String
  | [] => []
  | (label, globs) :: rest =>
    if label ∈ existingLabels then ruleLabels existingLabels changedFiles rest
    else if checkGlobs changedFiles globs then label :: ruleLabels existingLabels changedFiles rest
    else ruleLabels existingLabels changedFiles rest

/-- The decision computed by `processPR`: the rule loop's result, then
`if (notFoundLabel && labelsToAdd.length === 0) labelsToAdd.push(notFoundLabel)`
(a JavaScript string is truthy exactly when it is non-empty). -/
def decideLabels (existingLabels changedFiles : List String)
    (labelGlobs : List (String × List String)) (notFoundLabel : String) : List String :=
  let labelsToAdd := ruleLabels existingLabels changedFiles labelGlobs
  if notFoundLabel ≠ "" ∧ labelsToAdd = [] then [notFoundLabel] else labelsToAdd

/-! ## The existing-label set (src/main.ts line 55 and lines 113-125) -/

/-- `new Set(...names)`: the spread passes each name as a separate
argument to the `Set` constructor, which uses only its first argument
and, that argument being a string, iterates it character by character.
The resulting set therefore holds the characters of the first label
name (as one-character strings), not the label names; with no labels it
is empty.  This embeds line 55,
`new Set(...pr.labels.map(l => l.name))`. -/
def newSetSpread : List String → List String
  | [] => []
  | name :: _ => name.toList.map (fun c => String.mk [c])

/-- The `pull_request` object of the triggering event's payload, with
`labels` the attached labels' names (in the payload each label is an
object whose `name` field is the string). -/
structure PullRequestPayload where
  number : Nat
  labels : List String
deriving DecidableEq, Repr

/-- `getThisPr()` (src/main.ts lines 113-125): with no `pull_request` in
the payload it returns `undefined`; otherwise it evaluates
`pullRequest.labels(l => l.name)`, which calls the `labels` array as a
function — in JavaScript a `TypeError` regardless of the payload — so
the branch always throws instead of returning the pull request. -/
def getThisPr : Option PullRequestPayload → Except String (Option (Nat × List String))
  | none => .ok none
  | some _ => .error "TypeError: pullRequest.labels is not a function"

/-! ## JavaScript numbers for the operation budget -/

/-- A JavaScript number as used for `operationsLeft`: `parseInt` yields
either an integer or NaN. -/
inductive JsNum where
  | nan
  | num (n : Int)
deriving DecidableEq, Repr

/-- The JavaScript comparison `v <= 0`: false for NaN. -/
def JsNum.leZero : JsNum → Bool
  | .nan => false
  | .num n => decide (n ≤ 0)

/-- `v - 1` on a JavaScript number: NaN stays NaN. -/
def JsNum.dec : JsNum → JsNum
  | .nan => .nan
  | .num n => .num (n - 1)

/-- The startup validation of `operations-per-run` (src/main.ts lines
15-17): `if (operationsPerRun <= 0) throw ...`.  True when the run is
aborted at startup. -/
def startupRejects (operationsPerRun : JsNum) : Bool :=
  operationsPerRun.leZero

/-! ## The sweep loop of run (src/main.ts lines 45-66) -/

/-- A pull request summary from one page of the open-PR listing:
its number and the names of its attached labels. -/
structure PullReq where
  number : Nat
  labels : List String
deriving DecidableEq, Repr

/-- The platform API as the sweep sees it: what `getChangedFiles` and
`addLabels` do for each pull-request number (`Except.error` / `some msg`
model a thrown error). -/
structure Env where
  changedFiles : Nat → Except String (List String)
  addLabelsResult : Nat → Option String

/-- Observable events of a sweep, in order: a page fetched by the
pagination iterator, a pull request evaluated (`processPR` entered; the
budget value at the preceding check is recorded), a label-add API call,
a `core.setFailed` from `processPR`'s catch block, and the early return
on budget exhaustion. -/
inductive Ev where
  | fetchPage (idx : Nat)
  | eval (pr : Nat) (left : JsNum)
  | add (pr : Nat) (labels : List String)
  | fail (pr : Nat) (msg : String)
  | budgetHalt
deriving DecidableEq, Repr

/-- One `processPR(client, prNumber, existingLabels, labelGlobs,
notFoundLabel)` call: fetch the changed files (an error is caught,
`setFailed`, return false); compute the decision; if non-empty, call
`addLabels` (an error again caught and `setFailed`) and return true;
otherwise return false.  Result: the events it emits and its boolean
return value. -/
def processPRrun (env : Env) (prNumber : Nat) (existingLabels : List String)
    (labelGlobs : List (String × List String)) (notFoundLabel : String) : List Ev × Bool :=
  match env.changedFiles prNumber with
  | .error e => ([Ev.fail prNumber e], false)
  | .ok changedFiles =>
    let labelsToAdd := decideLabels existingLabels changedFiles labelGlobs notFoundLabel
    if labelsToAdd = [] then ([], false)
    else
      match env.addLabelsResult prNumber with
      | some e => ([Ev.fail prNumber e], false)
      | none => ([Ev.add prNumber labelsToAdd], true)

/-- Result of running the inner per-page loop of the sweep: the events,
the remaining budget, and whether the `return` on budget exhaustion
fired (which exits the whole sweep). -/
structure SweepRes where
  evs : List Ev
  left : JsNum
  halted : Bool
deriving DecidableEq, Repr

/-- The inner loop of the sweep (src/main.ts lines 46-65): for each pull
request of a page, first check `operationsLeft <= 0` and return on
exhaustion; otherwise build the existing-label set by `newSetSpread`,
run `processPR`, and decrement the budget exactly when it returned
true. -/
def sweepPRs (env : Env) (labelGlobs : List (String × List String)) (notFoundLabel : String) :
    List PullReq → JsNum → SweepRes
  | [], left => ⟨[], left, false⟩
  | pr :: rest, left =>
    if left.leZero then ⟨[Ev.budgetHalt], left, true⟩
    else
      let p := processPRrun env pr.number (newSetSpread pr.labels) labelGlobs notFoundLabel
      let r := sweepPRs env labelGlobs notFoundLabel rest (if p.2 then left.dec else left)
      ⟨Ev.eval pr.number left :: p.1 ++ r.evs, r.left, r.halted⟩

/-- The outer pagination loop of the sweep (src/main.ts line 45): each
iteration of `for await ... client.paginate.iterator(opts)` fetches the
next page — before any per-PR budget check — then runs the inner loop;
the iteration stops when the inner loop's `return` fired or the pages
are exhausted. -/
def sweepPages (env : Env) (labelGlobs : List (String × List String)) (notFoundLabel : String) :
    List (List PullReq) → Nat → JsNum → List Ev
  | [], _, _ => []
  | page :: rest, idx, left =>
    let r := sweepPRs env labelGlobs notFoundLabel page left
    Ev.fetchPage idx :: r.evs ++
      (if r.halted then [] else sweepPages env labelGlobs notFoundLabel rest (idx + 1) r.left)

/-- Does the sweep change this pull request — i.e. does its `processPR`
call return true (non-empty decision and a successful add)? -/
def requiresChange (env : Env) (labelGlobs : List (String × List String))
    (notFoundLabel : String) (pr : PullReq) : Bool :=
  (processPRrun env pr.number (newSetSpread pr.labels) labelGlobs notFoundLabel).2

/-- How many label-add API calls a trace holds. -/
def countAdds (evs : List Ev) : Nat :=
  evs.countP (fun e => match e with | Ev.add _ _ => true | _ => false)

/-- How many pull-request evaluations a trace holds. -/
def countEvals (evs : List Ev) : Nat :=
  evs.countP (fun e => match e with | Ev.eval _ _ => true | _ => false)

/-- A platform environment where every pull request has the single
changed file `docs/readme.md` and every label-add succeeds. -/
def envW : Env := ⟨fun _ => Except.ok ["docs/readme.md"], fun _ => none⟩

/-- A platform environment where fetching any pull request's changed
files throws. -/
def envErr : Env := ⟨fun _ => Except.error "boom", fun _ => none⟩

/-! ## Helper lemmas -/

theorem matchAnyFile_iff (g : String) (files : List String) :
    matchAnyFile g files = true ↔ ∃ f ∈ files, minimatchMatch g f = true := by
  induction files with
  | nil => simp [matchAnyFile]
  | cons f fs ih =>
    simp only [matchAnyFile]
    by_cases h : minimatchMatch g f = true
    · simp [h]
    · simp [h, ih]

theorem checkGlobs_iff (files globs : List String) :
    checkGlobs files globs = true ↔ ∃ g ∈ globs, ∃ f ∈ files, minimatchMatch g f = true := by
  induction globs with
  | nil => simp [checkGlobs]
  | cons g gs ih =>
    simp only [checkGlobs]
    by_cases h : matchAnyFile g files = true
    · simp [h, (matchAnyFile_iff g files).mp h]
    · have h' : ∀ f ∈ files, ¬ minimatchMatch g f = true := by
        intro f hf hm
        exact h ((matchAnyFile_iff g files).mpr ⟨f, hf, hm⟩)
      rw [if_neg h, ih]
      constructor
      · rintro ⟨g', hg', f, hf, hm⟩
        exact ⟨g', List.mem_cons_of_mem _ hg', f, hf, hm⟩
      · rintro ⟨g', hg', f, hf, hm⟩
        rcases List.mem_cons.mp hg' with rfl | hg2
        · exact absurd hm (h' f hf)
        · exact ⟨g', hg2, f, hf, hm⟩

theorem checkGlobs_nil_files (globs : List String) : checkGlobs [] globs = false := by
  induction globs with
  | nil => rfl
  | cons g gs ih => simpa [checkGlobs, matchAnyFile] using ih

theorem processPRrun_cases (env : Env) (n : Nat) (ex : List String)
    (lg : List (String × List String)) (nf : String) :
    (∃ e, processPRrun env n ex lg nf = ([Ev.fail n e], false)) ∨
    processPRrun env n ex lg nf = ([], false) ∨
    (∃ ls, processPRrun env n ex lg nf = ([Ev.add n ls], true)) := by
  unfold processPRrun
  rcases env.changedFiles n with e | files
  · exact Or.inl ⟨e, rfl⟩
  · by_cases hd : decideLabels ex files lg nf = []
    · exact Or.inr (Or.inl (by simp [hd]))
    · rcases ha : env.addLabelsResult n with _ | e
      · exact Or.inr (Or.inr ⟨decideLabels ex files lg nf, by simp [hd, ha]⟩)
      · exact Or.inl ⟨e, by simp [hd, ha]⟩

theorem processPRrun_countAdds (env : Env) (n : Nat) (ex : List String)
    (lg : List (String × List String)) (nf : String) :
    countAdds (processPRrun env n ex lg nf).1 =
      (if (processPRrun env n ex lg nf).2 then 1 else 0) := by
  rcases processPRrun_cases env n ex lg nf with ⟨e, h⟩ | h | ⟨ls, h⟩ <;>
    simp [h, countAdds]

theorem processPRrun_countEvals (env : Env) (n : Nat) (ex : List String)
    (lg : List (String × List String)) (nf : String) :
    countEvals (processPRrun env n ex lg nf).1 = 0 := by
  rcases processPRrun_cases env n ex lg nf with ⟨e, h⟩ | h | ⟨ls, h⟩ <;>
    simp [h, countEvals]

theorem processPRrun_no_eval (env : Env) (n : Nat) (ex : List String)
    (lg : List (String × List String)) (nf : String) (m : Nat) (l : JsNum) :
    Ev.eval m l ∉ (processPRrun env n ex lg nf).1 := by
  rcases processPRrun_cases env n ex lg nf with ⟨e, h⟩ | h | ⟨ls, h⟩ <;>
    simp [h]

theorem processPRrun_no_halt (env : Env) (n : Nat) (ex : List String)
    (lg : List (String × List String)) (nf : String) :
    Ev.budgetHalt ∉ (processPRrun env n ex lg nf).1 := by
  rcases processPRrun_cases env n ex lg nf with ⟨e, h⟩ | h | ⟨ls, h⟩ <;>
    simp [h]

theorem countAdds_append (a b : List Ev) : countAdds (a ++ b) = countAdds a + countAdds b :=
  List.countP_append _ _ _

theorem countEvals_append (a b : List Ev) : countEvals (a ++ b) = countEvals a + countEvals b :=
  List.countP_append _ _ _

theorem countAdds_cons_eval (n : Nat) (l : JsNum) (evs : List Ev) :
    countAdds (Ev.eval n l :: evs) = countAdds evs := by
  simp [countAdds, List.countP_cons]

theorem countEvals_cons_eval (n : Nat) (l : JsNum) (evs : List Ev) :
    countEvals (Ev.eval n l :: evs) = countEvals evs + 1 := by
  simp [countEvals, List.countP_cons]

theorem countAdds_cons_fetchPage (i : Nat) (evs : List Ev) :
    countAdds (Ev.fetchPage i :: evs) = countAdds evs := by
  simp [countAdds, List.countP_cons]

theorem countEvals_cons_fetchPage (i : Nat) (evs : List Ev) :
    countEvals (Ev.fetchPage i :: evs) = countEvals evs := by
  simp [countEvals, List.countP_cons]

/-- With enough budget, the inner sweep loop over pull requests that all
require a change adds once per pull request, evaluates each of them,
and does not halt; it consumes one unit of budget per pull request. -/
theorem sweepPRs_allchange_le (env : Env) (lg : List (String × List String)) (nf : String) :
    ∀ (prs : List PullReq) (k : Int),
      (∀ pr ∈ prs, requiresChange env lg nf pr = true) →
      (prs.length : Int) ≤ k →
      countAdds (sweepPRs env lg nf prs (JsNum.num k)).evs = prs.length ∧
      countEvals (sweepPRs env lg nf prs (JsNum.num k)).evs = prs.length ∧
      (sweepPRs env lg nf prs (JsNum.num k)).left = JsNum.num (k - prs.length) ∧
      (sweepPRs env lg nf prs (JsNum.num k)).halted = false := by
  intro prs
  induction prs with
  | nil => intro k _ _; simp [sweepPRs, countAdds, countEvals]
  | cons pr rest ih =>
    intro k hall hk
    have hreq : (processPRrun env pr.number (newSetSpread pr.labels) lg nf).2 = true :=
      hall pr (List.mem_cons_self _ _)
    have hlen : ((rest.length : Int) + 1) ≤ k := by
      simpa [List.length_cons] using hk
    have hkz : (JsNum.num k).leZero = false := by
      simp only [JsNum.leZero, decide_eq_false_iff_not]
      omega
    obtain ⟨iha, ihe, ihl, ihh⟩ := ih (k - 1)
      (fun q hq => hall q (List.mem_cons_of_mem _ hq)) (by omega)
    simp only [sweepPRs, hkz, hreq, if_true, Bool.false_eq_true, if_false, JsNum.dec]
    refine ⟨?_, ?_, ?_, ihh⟩
    · rw [countAdds_append, countAdds_cons_eval, iha,
        processPRrun_countAdds, hreq]
      simp only [List.length_cons, if_true]
      omega
    · rw [countEvals_append, countEvals_cons_eval, ihe, processPRrun_countEvals]
      simp only [List.length_cons]
      omega
    · rw [ihl]
      simp only [List.length_cons]
      congr 1
      push_cast
      ring

/-- With insufficient budget, the inner sweep loop over pull requests
that all require a change adds and evaluates exactly `budget`-many of
them and then halts. -/
theorem sweepPRs_allchange_gt (env : Env) (lg : List (String × List String)) (nf : String) :
    ∀ (prs : List PullReq) (k : Int),
      (∀ pr ∈ prs, requiresChange env lg nf pr = true) →
      0 ≤ k → k < (prs.length : Int) →
      countAdds (sweepPRs env lg nf prs (JsNum.num k)).evs = k.toNat ∧
      countEvals (sweepPRs env lg nf prs (JsNum.num k)).evs = k.toNat ∧
      (sweepPRs env lg nf prs (JsNum.num k)).halted = true := by
  intro prs
  induction prs with
  | nil => intro k _ h0 hlt; simp at hlt; omega
  | cons pr rest ih =>
    intro k hall h0 hlt
    by_cases hk0 : k ≤ 0
    · have hkz : (JsNum.num k).leZero = true := by
        simp only [JsNum.leZero, decide_eq_true_eq]; omega
      have : k = 0 := le_antisymm hk0 h0
      subst this
      simp [sweepPRs, hkz, countAdds, countEvals]
    · have hkz : (JsNum.num k).leZero = false := by
        simp only [JsNum.leZero, decide_eq_false_iff_not]; omega
      have hreq : (processPRrun env pr.number (newSetSpread pr.labels) lg nf).2 = true :=
        hall pr (List.mem_cons_self _ _)
      have hrest : k - 1 < (rest.length : Int) := by
        simp only [List.length_cons] at hlt
        push_cast at hlt ⊢
        omega
      obtain ⟨iha, ihe, ihh⟩ := ih (k - 1)
        (fun q hq => hall q (List.mem_cons_of_mem _ hq)) (by omega) hrest
      simp only [sweepPRs, hkz, hreq, if_true, Bool.false_eq_true, if_false, JsNum.dec]
      refine ⟨?_, ?_, ihh⟩
      · rw [countAdds_append, countAdds_cons_eval, iha,
          processPRrun_countAdds, hreq]
        simp only [if_true]
        omega
      · rw [countEvals_append, countEvals_cons_eval, ihe, processPRrun_countEvals]
        omega

/-- Across all pages, when every listed pull request requires a change
the sweep adds to (and evaluates) exactly `min total budget` of them. -/
theorem sweepPages_allchange (env : Env) (lg : List (String × List String)) (nf : String) :
    ∀ (pages : List (List PullReq)) (idx : Nat) (k : Int),
      (∀ pr ∈ pages.flatten, requiresChange env lg nf pr = true) →
      0 ≤ k →
      countAdds (sweepPages env lg nf pages idx (JsNum.num k)) = min pages.flatten.length k.toNat ∧
      countEvals (sweepPages env lg nf pages idx (JsNum.num k)) = min pages.flatten.length k.toNat := by
  intro pages
  induction pages with
  | nil => intro idx k _ _; simp [sweepPages, countAdds, countEvals]
  | cons page rest ih =>
    intro idx k hall h0
    have hpage : ∀ pr ∈ page, requiresChange env lg nf pr = true := by
      intro q hq
      exact hall q (by simp only [List.flatten_cons, List.mem_append]; exact Or.inl hq)
    have hrest : ∀ pr ∈ rest.flatten, requiresChange env lg nf pr = true := by
      intro q hq
      exact hall q (by simp only [List.flatten_cons, List.mem_append]; exact Or.inr hq)
    by_cases hle : (page.length : Int) ≤ k
    · obtain ⟨ha, he, hl, hh⟩ := sweepPRs_allchange_le env lg nf page k hpage hle
      obtain ⟨iha, ihe⟩ := ih (idx + 1) (k - page.length) hrest (by omega)
      simp only [sweepPages, hh, Bool.false_eq_true, if_false, hl]
      constructor
      · rw [countAdds_append, countAdds_cons_fetchPage, ha, iha,
          List.flatten_cons, List.length_append]
        omega
      · rw [countEvals_append, countEvals_cons_fetchPage, he, ihe,
          List.flatten_cons, List.length_append]
        omega
    · obtain ⟨ha, he, hh⟩ := sweepPRs_allchange_gt env lg nf page k hpage h0 (by omega)
      simp only [sweepPages, hh, if_true]
      constructor
      · rw [countAdds_append, countAdds_cons_fetchPage, ha, List.flatten_cons,
          List.length_append]
        have hz : countAdds [] = 0 := rfl
        rw [hz]
        omega
      · rw [countEvals_append, countEvals_cons_fetchPage, he, List.flatten_cons,
          List.length_append]
        have hz : countEvals [] = 0 := rfl
        rw [hz]
        omega

/-- Every pull-request evaluation of the inner sweep loop happens with
a budget the exhaustion check did not reject. -/
theorem sweepPRs_eval_budget (env : Env) (lg : List (String × List String)) (nf : String) :
    ∀ (prs : List PullReq) (k : JsNum) (n : Nat) (l : JsNum),
      Ev.eval n l ∈ (sweepPRs env lg nf prs k).evs → l.leZero = false := by
  intro prs
  induction prs with
  | nil => intro k n l h; simp [sweepPRs] at h
  | cons pr rest ih =>
    intro k n l h
    by_cases hkz : k.leZero = true
    · simp [sweepPRs, hkz] at h
    · have hkz' : k.leZero = false := by
        cases hb : k.leZero
        · rfl
        · exact absurd hb hkz
      simp only [sweepPRs, hkz', Bool.false_eq_true, if_false, List.cons_append,
        List.mem_cons, List.mem_append] at h
      rcases h with h | h | h
      · cases h; exact hkz'
      · exact absurd h (processPRrun_no_eval env pr.number (newSetSpread pr.labels) lg nf n l)
      · exact ih _ n l h

/-- The inner sweep loop never emits `budgetHalt` when the budget is
NaN, never evaluates the exhaustion check as true, and leaves the
budget NaN while evaluating every pull request of the page. -/
theorem sweepPRs_nan (env : Env) (lg : List (String × List String)) (nf : String) :
    ∀ (prs : List PullReq),
      (sweepPRs env lg nf prs JsNum.nan).halted = false ∧
      (sweepPRs env lg nf prs JsNum.nan).left = JsNum.nan ∧
      countEvals (sweepPRs env lg nf prs JsNum.nan).evs = prs.length ∧
      Ev.budgetHalt ∉ (sweepPRs env lg nf prs JsNum.nan).evs := by
  intro prs
  induction prs with
  | nil => simp [sweepPRs, countEvals]
  | cons pr rest ih =>
    have hkz : JsNum.nan.leZero = false := rfl
    have hnan : (if (processPRrun env pr.number (newSetSpread pr.labels) lg nf).2
        then JsNum.nan.dec else JsNum.nan) = JsNum.nan := by
      cases (processPRrun env pr.number (newSetSpread pr.labels) lg nf).2 <;> rfl
    obtain ⟨ihh, ihl, ihe, ihm⟩ := ih
    simp only [sweepPRs, hkz, Bool.false_eq_true, if_false, hnan]
    refine ⟨ihh, ihl, ?_, ?_⟩
    · rw [countEvals_append, countEvals_cons_eval, processPRrun_countEvals, ihe]
      simp [List.length_cons]
      omega
    · simp only [List.cons_append, List.mem_cons, List.mem_append]
      rintro (h | h | h)
      · cases h
      · exact processPRrun_no_halt env pr.number (newSetSpread pr.labels) lg nf h
      · exact ihm h

/-! ## Claim theorems -/

/-- C1 (code bug): the sweep's `new Set(...pr.labels.map(l => l.name))`
spreads the label names into the `Set` constructor, so the
"existing labels" set for a pull request labeled `docs` is the character
set `{"d","o","c","s"}`, does not contain `"docs"`, and the decision
re-adds `"docs"` on every run — re-running against unchanged state
issues a second add, contradicting the claimed idempotence. -/
theorem existing_label_set_spread_bug :
    newSetSpread ["docs"] = ["d", "o", "c", "s"] ∧
    "docs" ∉ newSetSpread ["docs"] ∧
    decideLabels (newSetSpread ["docs"]) ["docs/readme.md"] [("docs", ["docs/**"])] "" =
      ["docs"] :=
  ⟨by decide, by decide, by decide⟩

/-- C2: with every listed pull request requiring a change and a budget
`K` smaller than their number, the sweep issues exactly `K` label-add
calls and evaluates exactly `K` pull requests (so the `(K+1)`-th one
requiring a change is never evaluated); and a pull request whose
decision is empty is passed over without touching the budget, whatever
its position (`rest` and `left` are arbitrary). -/
theorem sweep_operation_budget (env : Env) (lg : List (String × List String)) (nf : String)
    (pages : List (List PullReq)) (K : Nat)
    (hall : ∀ pr ∈ pages.flatten, requiresChange env lg nf pr = true)
    (hK : K < pages.flatten.length) :
    countAdds (sweepPages env lg nf pages 0 (JsNum.num K)) = K ∧
    countEvals (sweepPages env lg nf pages 0 (JsNum.num K)) = K ∧
    (∀ (pr : PullReq) (rest : List PullReq) (left : JsNum) (files : List String),
      left.leZero = false →
      env.changedFiles pr.number = Except.ok files →
      decideLabels (newSetSpread pr.labels) files lg nf = [] →
      sweepPRs env lg nf (pr :: rest) left =
        ⟨Ev.eval pr.number left :: (sweepPRs env lg nf rest left).evs,
         (sweepPRs env lg nf rest left).left,
         (sweepPRs env lg nf rest left).halted⟩) := by
  obtain ⟨ha, he⟩ := sweepPages_allchange env lg nf pages 0 (K : Int) hall (by omega)
  have hmin : min pages.flatten.length (K : Int).toNat = K := by omega
  refine ⟨by rw [ha, hmin], by rw [he, hmin], ?_⟩
  intro pr rest left files h0 hcf hd
  have hp : processPRrun env pr.number (newSetSpread pr.labels) lg nf = ([], false) := by
    unfold processPRrun
    rw [hcf]
    simp [hd]
  simp only [sweepPRs, h0, Bool.false_eq_true, if_false, hp]
  simp

/-- C2 witness: two single-PR pages both requiring a change, budget 1:
exactly one add call. -/
theorem sweep_operation_budget_witness :
    countAdds (sweepPages envW [("docs", ["docs/**"])] ""
      [[⟨1, []⟩], [⟨2, []⟩]] 0 (JsNum.num 1)) = 1 :=
  (sweep_operation_budget envW [("docs", ["docs/**"])] "" [[⟨1, []⟩], [⟨2, []⟩]] 1
    (by decide) (by decide)).1

/-- C3 (code bug): when the run context carries a triggering pull
request, `getThisPr` evaluates `pullRequest.labels(l => l.name)` —
calling the labels array as a function — so it throws a `TypeError`
instead of returning the pull request; the single-PR path never reaches
the label decision. -/
theorem getThisPr_always_throws :
    getThisPr (some ⟨1, ["bug"]⟩) =
      Except.error "TypeError: pullRequest.labels is not a function" := rfl

/-- C4: `checkGlobs` returns true iff some pattern matches some changed
file under the glob semantics; the claim's concrete example patterns
behave as stated, as do bracket character classes (with ranges and
negation) and brace alternation; empty file or pattern lists yield
false. -/
theorem checkGlobs_spec :
    (∀ (changedFiles globs : List String),
      checkGlobs changedFiles globs = true ↔
        ∃ g ∈ globs, ∃ f ∈ changedFiles, minimatchMatch g f = true) ∧
    minimatchMatch "src/**/*.ts" "src/a/b.ts" = true ∧
    minimatchMatch "src/**/*.ts" "src/a/b.js" = false ∧
    minimatchMatch "src/**/*.ts" "lib/b.ts" = false ∧
    minimatchMatch "{a,b}.ts" "a.ts" = true ∧
    minimatchMatch "{a,b}.ts" "b.ts" = true ∧
    minimatchMatch "{a,b}.ts" "c.ts" = false ∧
    minimatchMatch "**/*.{js,ts}" "src/a/b.ts" = true ∧
    minimatchMatch "**/*.{js,ts}" "src/a/b.py" = false ∧
    minimatchMatch "src/[ab]c.ts" "src/ac.ts" = true ∧
    minimatchMatch "src/[ab]c.ts" "src/bc.ts" = true ∧
    minimatchMatch "src/[ab]c.ts" "src/xc.ts" = false ∧
    minimatchMatch "[a-c]x" "bx" = true ∧
    minimatchMatch "[a-c]x" "dx" = false ∧
    minimatchMatch "[!a]x" "bx" = true ∧
    minimatchMatch "[!a]x" "ax" = false ∧
    (∀ globs : List String, checkGlobs [] globs = false) ∧
    (∀ files : List String, checkGlobs files [] = false) :=
  ⟨checkGlobs_iff, by decide, by decide, by decide, by decide, by decide, by decide,
   by decide, by decide, by decide, by decide, by decide, by decide, by decide,
   by decide, by decide, checkGlobs_nil_files, fun _ => rfl⟩

/-- C5: when the rule loop produced nothing and a fallback label is
configured (non-empty), the decision is exactly `[fallback]`; with no
fallback configured it stays empty; when any rule label was added the
decision is exactly the rule loop's result, so the fallback is never
appended. -/
theorem fallback_label_spec (existing changedFiles : List String)
    (labelGlobs : List (String × List String)) (notFoundLabel : String) :
    (ruleLabels existing changedFiles labelGlobs = [] → notFoundLabel ≠ "" →
      decideLabels existing changedFiles labelGlobs notFoundLabel = [notFoundLabel]) ∧
    (ruleLabels existing changedFiles labelGlobs = [] → notFoundLabel = "" →
      decideLabels existing changedFiles labelGlobs notFoundLabel = []) ∧
    (ruleLabels existing changedFiles labelGlobs ≠ [] →
      decideLabels existing changedFiles labelGlobs notFoundLabel =
        ruleLabels existing changedFiles labelGlobs) := by
  refine ⟨?_, ?_, ?_⟩
  · intro h hne
    simp [decideLabels, h, hne]
  · intro h he
    subst he
    simp [decideLabels, h]
  · intro h
    simp [decideLabels, h]

/-- C6: a configuration entry whose value is neither a single string nor
an array (a number, boolean, null, or an object — including the empty
object) makes `getLabelGlobMapFromObject` throw an error naming an
offending label key; no map is produced. -/
theorem config_bad_value_error (cfg : List (String × ConfigValue)) (label : String)
    (v : ConfigValue) (hmem : (label, v) ∈ cfg) (hbad : v.isStrOrArr = false) :
    ∃ badLabel badVal, ((badLabel, badVal) ∈ cfg ∧ badVal.isStrOrArr = false ∧
      getLabelGlobMapFromObject cfg = Except.error (configErrMsg badLabel)) := by
  induction cfg with
  | nil => exact absurd hmem (List.not_mem_nil _)
  | cons head rest ih =>
    obtain ⟨l0, v0⟩ := head
    by_cases hv0 : v0.isStrOrArr = true
    · have hmem' : (label, v) ∈ rest := by
        rcases List.mem_cons.mp hmem with heq | h
        · obtain ⟨h1, h2⟩ := Prod.mk.injEq .. ▸ heq
          rw [h2] at hbad
          rw [hbad] at hv0
          exact absurd hv0 (by simp)
        · exact h
      obtain ⟨bl, bv, hm, hb, herr⟩ := ih hmem'
      refine ⟨bl, bv, List.mem_cons_of_mem _ hm, hb, ?_⟩
      cases v0 with
      | str s => simp [getLabelGlobMapFromObject, herr, Except.map]
      | arr xs => simp [getLabelGlobMapFromObject, herr, Except.map]
      | num n => simp [ConfigValue.isStrOrArr] at hv0
      | boolv b => simp [ConfigValue.isStrOrArr] at hv0
      | nullv => simp [ConfigValue.isStrOrArr] at hv0
      | obj => simp [ConfigValue.isStrOrArr] at hv0
    · refine ⟨l0, v0, List.mem_cons_self _ _, by simpa using hv0, ?_⟩
      cases v0 with
      | str s => simp [ConfigValue.isStrOrArr] at hv0
      | arr xs => simp [ConfigValue.isStrOrArr] at hv0
      | num n => rfl
      | boolv b => rfl
      | nullv => rfl
      | obj => rfl

/-- C6 witness: a label mapped to a number is rejected with the error
naming it. -/
theorem config_bad_value_error_witness :
    ∃ badLabel badVal, ((badLabel, badVal) ∈ [("size", ConfigValue.num 3)] ∧
      badVal.isStrOrArr = false ∧
      getLabelGlobMapFromObject [("size", ConfigValue.num 3)] =
        Except.error (configErrMsg badLabel)) :=
  config_bad_value_error [("size", ConfigValue.num 3)] "size" (ConfigValue.num 3)
    (by decide) (by decide)

/-- C7 counterexample: one pull request per page, budget 1.  The add for
pull request 1 exhausts the budget at the end of page 0, yet the trace
shows page 1 being fetched afterwards (the pagination iterator runs
before the per-PR check), refuting "no further page is ever fetched";
only then does the check fire. -/
theorem budget_exhaustion_page_fetch_cex :
    sweepPages envW [("docs", ["docs/**"])] "" [[⟨1, []⟩], [⟨2, []⟩]] 0 (JsNum.num 1) =
      [Ev.fetchPage 0, Ev.eval 1 (JsNum.num 1), Ev.add 1 ["docs"],
       Ev.fetchPage 1, Ev.budgetHalt] ∧
    (sweepPages envW [("docs", ["docs/**"])] "" [[⟨1, []⟩], [⟨2, []⟩]] 0
        (JsNum.num 1)).drop 3 = [Ev.fetchPage 1, Ev.budgetHalt] :=
  ⟨by decide, by decide⟩

/-- C7 (amended): the exhaustion check does precede every pull-request
evaluation — every `eval` event in any sweep trace carries a budget the
check `operationsLeft <= 0` rejected as exhausted in no case — so no
pull request is ever evaluated after exhaustion, even though the next
page fetch can still happen first. -/
theorem no_eval_after_exhaustion (env : Env) (lg : List (String × List String))
    (nf : String) (pages : List (List PullReq)) (idx : Nat) (k : JsNum)
    (n : Nat) (l : JsNum)
    (h : Ev.eval n l ∈ sweepPages env lg nf pages idx k) : l.leZero = false := by
  induction pages generalizing idx k with
  | nil => simp [sweepPages] at h
  | cons page rest ih =>
    simp only [sweepPages, List.cons_append, List.mem_cons, List.mem_append] at h
    rcases h with h | h | h
    · cases h
    · exact sweepPRs_eval_budget env lg nf page k n l h
    · by_cases hh : (sweepPRs env lg nf page k).halted = true
      · rw [hh] at h
        simp at h
      · have hh' : (sweepPRs env lg nf page k).halted = false := by
          cases hb : (sweepPRs env lg nf page k).halted
          · rfl
          · exact absurd hb hh
        rw [hh'] at h
        simp only [Bool.false_eq_true, if_false] at h
        exact ih _ _ h

/-- C7 witness: the single evaluation of a one-PR sweep with budget 1
happened with an unexhausted budget. -/
theorem no_eval_after_exhaustion_witness : JsNum.leZero (JsNum.num 1) = false :=
  no_eval_after_exhaustion envW [("docs", ["docs/**"])] "" [[⟨1, []⟩]] 0
    (JsNum.num 1) 1 (JsNum.num 1) (by decide)

/-- C8: when `processPR` fails for one pull request (its events are a
single `setFailed` record and it returns false), the sweep records the
failure, does not decrement the budget (the remaining pull requests are
processed with the same `left`), and continues to the next pull
request. -/
theorem sweep_error_continues (env : Env) (lg : List (String × List String)) (nf : String)
    (pr : PullReq) (rest : List PullReq) (k : JsNum) (e : String)
    (hk : k.leZero = false)
    (hp : processPRrun env pr.number (newSetSpread pr.labels) lg nf =
      ([Ev.fail pr.number e], false)) :
    sweepPRs env lg nf (pr :: rest) k =
      ⟨Ev.eval pr.number k :: Ev.fail pr.number e :: (sweepPRs env lg nf rest k).evs,
       (sweepPRs env lg nf rest k).left, (sweepPRs env lg nf rest k).halted⟩ ∧
    Ev.fail pr.number e ∈ (sweepPRs env lg nf (pr :: rest) k).evs := by
  have h1 : sweepPRs env lg nf (pr :: rest) k =
      ⟨Ev.eval pr.number k :: Ev.fail pr.number e :: (sweepPRs env lg nf rest k).evs,
       (sweepPRs env lg nf rest k).left, (sweepPRs env lg nf rest k).halted⟩ := by
    simp only [sweepPRs, hk, Bool.false_eq_true, if_false, hp]
    simp
  refine ⟨h1, ?_⟩
  rw [h1]
  simp

/-- C8 witness: with an environment whose changed-file fetch throws,
the failure for pull request 1 is in the trace and the sweep goes on. -/
theorem sweep_error_continues_witness :
    Ev.fail 1 "boom" ∈
      (sweepPRs envErr [("docs", ["docs/**"])] "" [⟨1, []⟩, ⟨2, []⟩] (JsNum.num 5)).evs :=
  (sweep_error_continues envErr [("docs", ["docs/**"])] "" ⟨1, []⟩ [⟨2, []⟩]
    (JsNum.num 5) "boom" (by decide) (by decide)).2

/-- C9 counterexample: on the claimed scenario the decision is not
`["docs", "ts"]`: the pattern `*.ts` has no path separator, so it only
matches single-segment paths and does not match `src/app.ts`. -/
theorem scenario_decision_cex :
    decideLabels [] ["docs/readme.md", "src/app.ts"]
      [("docs", ["docs/**"]), ("ts", ["*.ts"])] "" ≠ ["docs", "ts"] := by decide

/-- C9 (amended): on that scenario the decision is exactly `["docs"]`
(in rule order); `"ts"` is not added because `*.ts` does not match the
two-segment path `src/app.ts`. -/
theorem scenario_decision_amended :
    decideLabels [] ["docs/readme.md", "src/app.ts"]
      [("docs", ["docs/**"]), ("ts", ["*.ts"])] "" = ["docs"] := by decide

/-- C10: the startup check rejects the parsed `operations-per-run`
exactly when it is an integer at most zero — NaN (what `parseInt` yields
on a non-numeric input) is not rejected, because `NaN <= 0` is false —
and a sweep run with a NaN budget never halts on budget: the exhaustion
test never becomes true, no `budgetHalt` is emitted, and every listed
pull request is evaluated. -/
theorem nan_budget_never_halts :
    (∀ v : JsNum, startupRejects v = true ↔ ∃ n, v = JsNum.num n ∧ n ≤ 0) ∧
    (∀ (env : Env) (lg : List (String × List String)) (nf : String)
        (pages : List (List PullReq)) (idx : Nat),
      Ev.budgetHalt ∉ sweepPages env lg nf pages idx JsNum.nan ∧
      countEvals (sweepPages env lg nf pages idx JsNum.nan) = pages.flatten.length) := by
  constructor
  · intro v
    cases v with
    | nan => simp [startupRejects, JsNum.leZero]
    | num n => simp [startupRejects, JsNum.leZero]
  · intro env lg nf pages
    induction pages with
    | nil => intro idx; simp [sweepPages, countEvals]
    | cons page rest ih =>
      intro idx
      obtain ⟨hh, hl, he, hm⟩ := sweepPRs_nan env lg nf page
      obtain ⟨ihm, ihe⟩ := ih (idx + 1)
      constructor
      · simp only [sweepPages, hh, Bool.false_eq_true, if_false, hl, List.cons_append,
          List.mem_cons, List.mem_append]
        rintro (h | h | h)
        · cases h
        · exact hm h
        · exact ihm h
      · simp only [sweepPages, hh, Bool.false_eq_true, if_false, hl]
        rw [countEvals_append, countEvals_cons_fetchPage, he, ihe,
          List.flatten_cons, List.length_append]

end Labeler
